import Mathlib

/-!
Verification development for the LotteryPrediction repository.

We shallowly embed the core of `app/data_fetcher.py` (ingestion pipeline:
header detection, number/field extraction, row canonicalization, dedup-insert
loop, commit behaviour) and `app/predictions.py` (frequency prediction engine)
as executable Lean definitions, and prove the specification claims about them.

Modelling conventions:
* Python strings are Lean `String`s; the handful of string primitives used by
  the source (`in`, `startswith`, `replace`, `lstrip`, `strip`, `int(...)`,
  leading-digit regex match) are modelled by executable functions on `List Char`.
* A parsed data row (the `Dict[str, str]` produced by `_prepare_lotto_rows` /
  `_prepare_reader`) is an association list `Row := List (String × String)`
  iterated in insertion order, exactly as Python iterates a `dict`.
* `dateutil.parser.parse` is an external library leaf: it is taken as a
  parameter `pdp : String → Option Nat` (a calendar date is abstracted to a
  `Nat` identifier; `none` models a parse failure).
* Exceptions (`FetchError` and friends) become an explicit `Except` /
  result-pair; the SQLAlchemy session becomes an explicit record with a
  committed part and a pending (added but uncommitted) part, where queries see
  committed ++ pending (autoflush) and `commit` moves pending into committed.
-/

deriving instance DecidableEq for Except

namespace Lottery

/-- Error taxonomy of the ingestion pipeline: `invalidValue` models the
`FetchError` raised by `_parse_int`, `invalidDate`/`dateMissing` the two
failure modes of `_parse_date`, `headerNotFound` the `FetchError` of
`_prepare_lotto_rows`, and `downloadError` a transport failure of
`_download_csv`/`_download_binary`. -/
inductive FetchErr where
  | invalidValue (s : String)
  | invalidDate (s : String)
  | dateMissing
  | headerNotFound
  | downloadError
deriving DecidableEq

/-- Character-list test: does `pat` occur as a contiguous substring of `s`?
Models the Python expression `pat in s` on strings. -/
def isSubL (pat : List Char) : List Char → Bool
  | [] => pat.isEmpty
  | c :: rest => pat.isPrefixOf (c :: rest) || isSubL pat rest

/-- String containment, models Python `pat in s`. -/
def containsS (s pat : String) : Bool := isSubL pat.toList s.toList

/-- Models Python `s.startswith(pfx)`. -/
def startsS (s pfx : String) : Bool := pfx.toList.isPrefixOf s.toList

/-- Fuel-driven scan behind `removeAllL`; the fuel dominates the length of
the remaining input, so the `0, _ :: _` case is never reached. Structural
recursion on the fuel keeps the function kernel-reducible. -/
def removeAllAux (pat : List Char) : Nat → List Char → List Char
  | _, [] => []
  | 0, s => s
  | fuel + 1, c :: rest =>
    if pat.isEmpty = false ∧ pat.isPrefixOf (c :: rest) = true then
      removeAllAux pat fuel (rest.drop (pat.length - 1))
    else
      c :: removeAllAux pat fuel rest

/-- Remove every (non-overlapping, left-to-right) occurrence of `pat`,
models Python `s.replace(pat, "")`. -/
def removeAllL (pat : List Char) (s : List Char) : List Char :=
  removeAllAux pat s.length s

/-- Models Python `s.lstrip("_")`. -/
def dropUnderscoresL (s : List Char) : List Char := s.dropWhile (fun c => c = '_')

/-- Models Python `s.strip()` (whitespace trim on both ends). -/
def trimL (s : List Char) : List Char :=
  ((s.dropWhile Char.isWhitespace).reverse.dropWhile Char.isWhitespace).reverse

/-- Value of a non-empty all-digit character run, `none` otherwise. -/
def digitsVal? (cs : List Char) : Option Nat :=
  if cs.isEmpty = false ∧ cs.all Char.isDigit = true then
    some (cs.foldl (fun acc c => acc * 10 + (c.toNat - 48)) 0)
  else none

/-- Model of the Python builtin `int(s)` on an already-stripped string:
an optionally signed run of decimal digits. -/
def pyInt? (cs : List Char) : Option Int :=
  match cs with
  | '+' :: rest => (digitsVal? rest).map Int.ofNat
  | '-' :: rest => (digitsVal? rest).map (fun n => -(Int.ofNat n))
  | _ => (digitsVal? cs).map Int.ofNat

/-- Leading digit run of `cs` as a number, models `re.match(r"(\d+)", s)`
followed by `int(match.group(1))`. -/
def leadingNat? (cs : List Char) : Option Nat := digitsVal? (cs.takeWhile Char.isDigit)

/-- Embedding of `_parse_int` (data_fetcher.py:177-186): `None` and
whitespace-only values yield `None`; a numeric value parses; any other
non-empty value raises `FetchError` (here: `Except.error`). -/
def parseIntE (v : Option String) : Except FetchErr (Option Int) :=
  match v with
  | none => .ok none
  | some s =>
    let t := trimL s.toList
    if t.isEmpty then .ok none
    else
      match pyInt? t with
      | some n => .ok (some n)
      | none => .error (.invalidValue (String.mk t))

/-- A parsed data row: key/value pairs in dict insertion order. -/
abbrev Row : Type := List (String × String)

/-- Python `row[key]` lookup (first binding; rows built from dicts have
unique keys). -/
def rowGet? (row : Row) (k : String) : Option String :=
  (List.find? (fun p => p.1 = k) row).map (·.2)

/-- Does the key contain any of the given terms, models
`any(term in key for term in terms)`. -/
def containsAnyS (k : String) (terms : List String) : Bool :=
  terms.any (fun t => containsS k t)

/-- Stable ascending order on (column-suffix, value) pairs by suffix, the key
function of `extracted.sort(key=lambda item: item[0])`. -/
def idxLe (a b : Nat × Int) : Prop := a.1 ≤ b.1

instance : DecidableRel idxLe := fun a b => inferInstanceAs (Decidable (a.1 ≤ b.1))

instance : IsTotal (Nat × Int) idxLe := ⟨fun a b => Nat.le_total a.1 b.1⟩

instance : IsTrans (Nat × Int) idxLe := ⟨fun _ _ _ h h' => Nat.le_trans h h'⟩

/-- Collection pass of `_extract_numbers` (data_fetcher.py:153-172): walk the
row in order, skip empty values and keys tagged `tirage`/`chance`/`bonus`/
`complementaire`, and for keys starting with `pfx` whose stripped suffix has a
leading digit run, parse the value (which may raise) and record
(suffix, value). -/
def extractPairsE (pfx : String) : Row → Except FetchErr (List (Nat × Int))
  | [] => .ok []
  | (k, v) :: rest =>
    if v = "" || containsS k "tirage" || containsS k "chance" || containsS k "bonus"
        || containsS k "complementaire" then
      extractPairsE pfx rest
    else if startsS k pfx then
      match leadingNat? (dropUnderscoresL (removeAllL pfx.toList k.toList)) with
      | none => extractPairsE pfx rest
      | some idx =>
        match parseIntE (some v) with
        | .error e => .error e
        | .ok none => extractPairsE pfx rest
        | .ok (some n) => (extractPairsE pfx rest).map (fun ps => (idx, n) :: ps)
    else extractPairsE pfx rest

/-- Embedding of `_extract_numbers` (data_fetcher.py:153-174): collect
(suffix, value) pairs, sort stably by suffix, return the values. -/
def extractNumbersE (row : Row) (pfx : String) : Except FetchErr (List Int) :=
  (extractPairsE pfx row).map (fun ps => (List.insertionSort idxLe ps).map (·.2))

/-- Priority key list of `_parse_date` (data_fetcher.py:190). -/
def dateKeys : List String := ["date_de_tirage", "date_du_tirage", "date", "drawdate"]

/-- Key scan of `_parse_date`: first present non-empty candidate value is fed
to the date parser `pdp` (the `dateutil.parser.parse` leaf). -/
def parseDateKeys (pdp : String → Option Nat) (row : Row) : List String → Except FetchErr Nat
  | [] => .error .dateMissing
  | k :: ks =>
    match rowGet? row k with
    | some v =>
      if v ≠ "" then
        match pdp v with
        | some d => .ok d
        | none => .error (.invalidDate v)
      else parseDateKeys pdp row ks
    | none => parseDateKeys pdp row ks

/-- Embedding of `_parse_date` (data_fetcher.py:189-196) composed with
`.date()`: dates are abstract `Nat` identifiers produced by `pdp`. -/
def parseDateE (pdp : String → Option Nat) (row : Row) : Except FetchErr Nat :=
  parseDateKeys pdp row dateKeys

/-- Priority key list of `_parse_draw_number` (data_fetcher.py:200-207). -/
def drawNumberKeys : List String :=
  ["numero_de_tirage", "numero_du_tirage", "num_tirage", "n_tirage", "tirage", "drawnumber"]

/-- Key scan of `_parse_draw_number`: at the first *present* key (even with an
empty value) the value is parsed with `_parse_int`; absence everywhere yields
`none`. -/
def parseDrawNumberKeys (row : Row) : List String → Except FetchErr (Option Int)
  | [] => .ok none
  | k :: ks =>
    match rowGet? row k with
    | some v => parseIntE (some v)
    | none => parseDrawNumberKeys row ks

/-- Embedding of `_parse_draw_number` (data_fetcher.py:199-210). -/
def parseDrawNumberE (row : Row) : Except FetchErr (Option Int) :=
  parseDrawNumberKeys row drawNumberKeys

/-- Model of Python `sorted(set(l))`: ascending sort of the distinct elements. -/
def pySortedSet (l : List Int) : List Int :=
  List.insertionSort (· ≤ ·) l.dedup

/-- Main-number prefix tuple tried by `update_loto_draws`
(data_fetcher.py:222). -/
def lotoMainPfxs : List String := ["boule_", "boule", "numero_", "num_", "n_"]

/-- Prefix loop of `update_loto_draws` (data_fetcher.py:224-227): try each
prefix until one extracts a non-empty list. -/
def lotoPrefixLoop (row : Row) : List String → Except FetchErr (List Int)
  | [] => .ok []
  | p :: ps =>
    match extractNumbersE row p with
    | .error e => .error e
    | .ok ns => if ns = [] then lotoPrefixLoop row ps else .ok ns

/-- Fallback gather of `update_loto_draws` (data_fetcher.py:229-236): every
cell whose key is not tagged date/tirage/chance/bonus/complementaire is parsed
(which may raise) and numeric values are collected in row order. -/
def lotoFallbackGatherE : Row → Except FetchErr (List Int)
  | [] => .ok []
  | (k, v) :: rest =>
    if containsAnyS k ["date", "tirage", "chance", "bonus", "complementaire"] then
      lotoFallbackGatherE rest
    else
      match parseIntE (some v) with
      | .error e => .error e
      | .ok none => lotoFallbackGatherE rest
      | .ok (some n) => (lotoFallbackGatherE rest).map (fun ns => n :: ns)

/-- Main-number computation of `update_loto_draws` (data_fetcher.py:222-237):
prefix loop, then (only when it produced nothing) the positional fallback,
deduplicated and sorted. -/
def lotoNumbersE (row : Row) : Except FetchErr (List Int) :=
  match lotoPrefixLoop row lotoMainPfxs with
  | .error e => .error e
  | .ok ns =>
    if ns = [] then (lotoFallbackGatherE row).map pySortedSet
    else .ok ns

/-- Chance-number scan of `update_loto_draws` (data_fetcher.py:238-243): walk
the row, parse cells whose key is tagged chance/bonus/complementaire (a parse
failure raises), stop at the first numeric one. -/
def lotoChanceE : Row → Except FetchErr (Option Int)
  | [] => .ok none
  | (k, v) :: rest =>
    if containsAnyS k ["chance", "bonus", "complementaire"] then
      match parseIntE (some v) with
      | .error e => .error e
      | .ok (some n) => .ok (some n)
      | .ok none => lotoChanceE rest
    else lotoChanceE rest

/-- A stored Loto draw row (`LotoDraw` in models.py); `main_numbers` is kept
as the list that the source serializes with `",".join`. -/
structure LotoRec where
  draw_date : Nat
  draw_number : Option Int
  main_numbers : List Int
  chance_number : Int
deriving DecidableEq

/-- A stored EuroMillions draw row (`EuroMillionsDraw` in models.py). -/
structure EuroRec where
  draw_date : Nat
  draw_number : Option Int
  main_numbers : List Int
  star_numbers : List Int
deriving DecidableEq

/-- Row canonicalization of `update_loto_draws` (data_fetcher.py:219-266
before the store lookup): resolve date (may abort), draw number (may abort),
main numbers and chance number (each may abort), then apply the cardinality
checks; `ok none` is a silent row skip. -/
def lotoCanon (pdp : String → Option Nat) (row : Row) : Except FetchErr (Option LotoRec) :=
  match parseDateE pdp row with
  | .error e => .error e
  | .ok dd =>
    match parseDrawNumberE row with
    | .error e => .error e
    | .ok dn =>
      match lotoNumbersE row with
      | .error e => .error e
      | .ok nums =>
        match lotoChanceE row with
        | .error e => .error e
        | .ok chOpt =>
          if nums.length < 5 then .ok none
          else
            match chOpt with
            | none => .ok none
            | some ch =>
              if (pySortedSet nums).length ≠ 5 then .ok none
              else .ok (some ⟨dd, dn, pySortedSet nums, ch⟩)

/-- Row canonicalization of `update_euromillions_draws`
(data_fetcher.py:281-307 before the store lookup). -/
def euroCanon (pdp : String → Option Nat) (row : Row) : Except FetchErr (Option EuroRec) :=
  match parseDateE pdp row with
  | .error e => .error e
  | .ok dd =>
    match parseDrawNumberE row with
    | .error e => .error e
    | .ok dn =>
      match extractNumbersE row "boule_" with
      | .error e => .error e
      | .ok nums =>
        match extractNumbersE row "etoile_" with
        | .error e => .error e
        | .ok stars =>
          if nums.length < 5 || stars.length < 2 then .ok none
          else
            if (pySortedSet nums).length ≠ 5 ∨ (pySortedSet stars).length ≠ 2 then .ok none
            else .ok (some ⟨dd, dn, pySortedSet nums, pySortedSet stars⟩)

/-- The SQLAlchemy session: per table a committed store and a pending list of
rows added with `session.add` but not yet committed. Queries (autoflush) see
committed ++ pending; `session.commit()` moves all pending rows of the whole
session into the committed stores. -/
structure Sess where
  lotoDb : List LotoRec
  lotoPending : List LotoRec
  euroDb : List EuroRec
  euroPending : List EuroRec
deriving DecidableEq

/-- The rows of the loto table visible to a query on this session. -/
def lotoVisible (s : Sess) : List LotoRec := s.lotoDb ++ s.lotoPending

/-- The rows of the euromillions table visible to a query on this session. -/
def euroVisible (s : Sess) : List EuroRec := s.euroDb ++ s.euroPending

/-- Model of `session.commit()`. -/
def commitSess (s : Sess) : Sess :=
  ⟨s.lotoDb ++ s.lotoPending, [], s.euroDb ++ s.euroPending, []⟩

/-- Model of `session.add(draw)` for a loto row. -/
def addLotoPending (s : Sess) (d : LotoRec) : Sess :=
  { s with lotoPending := s.lotoPending ++ [d] }

/-- Model of `session.add(draw)` for a euromillions row. -/
def addEuroPending (s : Sess) (d : EuroRec) : Sess :=
  { s with euroPending := s.euroPending ++ [d] }

/-- The `(draw_date, draw_number)` filter of the dedup lookup
(data_fetcher.py:253-256); SQL `= NULL` becomes `IS NULL` under SQLAlchemy,
matching `Option` equality. -/
def matchLKey (e d : LotoRec) : Bool :=
  decide (e.draw_date = d.draw_date) && decide (e.draw_number = d.draw_number)

/-- The dedup filter for euromillions rows (data_fetcher.py:294-297). -/
def matchEKey (e d : EuroRec) : Bool :=
  decide (e.draw_date = d.draw_date) && decide (e.draw_number = d.draw_number)

/-- Does the session already contain a loto row with this record's key? -/
def hasLKey (s : Sess) (d : LotoRec) : Bool :=
  (lotoVisible s).any (fun e => matchLKey e d)

/-- Does the session already contain a euromillions row with this key? -/
def hasEKey (s : Sess) (d : EuroRec) : Bool :=
  (euroVisible s).any (fun e => matchEKey e d)

/-- The per-row loop of `update_loto_draws` (data_fetcher.py:219-268): each
row is canonicalized (a structural error aborts, surfacing the session state
at that moment), skipped silently, skipped as a duplicate, or added to the
session, incrementing the `inserted` counter. -/
def lotoLoop (pdp : String → Option Nat) :
    List Row → Sess → Nat → (Except FetchErr Nat) × Sess
  | [], s, n => (.ok n, s)
  | row :: rest, s, n =>
    match lotoCanon pdp row with
    | .error e => (.error e, s)
    | .ok none => lotoLoop pdp rest s n
    | .ok (some d) =>
      if hasLKey s d then lotoLoop pdp rest s n
      else lotoLoop pdp rest (addLotoPending s d) (n + 1)

/-- The per-row loop of `update_euromillions_draws`
(data_fetcher.py:281-309). -/
def euroLoop (pdp : String → Option Nat) :
    List Row → Sess → Nat → (Except FetchErr Nat) × Sess
  | [], s, n => (.ok n, s)
  | row :: rest, s, n =>
    match euroCanon pdp row with
    | .error e => (.error e, s)
    | .ok none => euroLoop pdp rest s n
    | .ok (some d) =>
      if hasEKey s d then euroLoop pdp rest s n
      else euroLoop pdp rest (addEuroPending s d) (n + 1)

/-- Embedding of `update_loto_draws` (data_fetcher.py:213-272). The `src`
argument is the combined outcome of `_download_binary` and
`_prepare_lotto_rows`: either a structural error or the prepared row dicts.
After the loop, `session.commit()` runs only when at least one row was
inserted. -/
def updateLotoDraws (pdp : String → Option Nat) (src : Except FetchErr (List Row))
    (s : Sess) : (Except FetchErr Nat) × Sess :=
  match src with
  | .error e => (.error e, s)
  | .ok rows =>
    match lotoLoop pdp rows s 0 with
    | (.error e, s') => (.error e, s')
    | (.ok n, s') => if n ≠ 0 then (.ok n, commitSess s') else (.ok n, s')

/-- Embedding of `update_euromillions_draws` (data_fetcher.py:275-313). -/
def updateEuroDraws (pdp : String → Option Nat) (src : Except FetchErr (List Row))
    (s : Sess) : (Except FetchErr Nat) × Sess :=
  match src with
  | .error e => (.error e, s)
  | .ok rows =>
    match euroLoop pdp rows s 0 with
    | (.error e, s') => (.error e, s')
    | (.ok n, s') => if n ≠ 0 then (.ok n, commitSess s') else (.ok n, s')

/-- Embedding of `update_all_draws` (data_fetcher.py:316-322): the loto pass
runs (and on success has already committed) before the euromillions pass
starts; an error in either pass propagates with the session state at that
moment. -/
def updateAllDraws (pdp : String → Option Nat) (srcL srcE : Except FetchErr (List Row))
    (s : Sess) : (Except FetchErr (Nat × Nat)) × Sess :=
  match updateLotoDraws pdp srcL s with
  | (.error e, s') => (.error e, s')
  | (.ok nl, s') =>
    match updateEuroDraws pdp srcE s' with
    | (.error e, s'') => (.error e, s'')
    | (.ok ne, s'') => (.ok (nl, ne), s'')

/-! ### Header detection (`_looks_like_lotto_header`, `_prepare_lotto_rows`)

The unicode normalization `_normalize_header` itself is an external leaf
(parameter `nh`); header detection and row preparation operate on the
normalized strings exactly as in the source. A worksheet is a matrix of cell
strings where `""` stands for an empty/`None` cell (`_format_cell` of a
non-empty cell is the identity on our string cells). -/

/-- Main-number column prefixes recognized by `_looks_like_lotto_header`
(data_fetcher.py:91). -/
def headerMainPfxs : List String := ["boule", "numero", "num", "n_"]

/-- Extra-number keywords recognized by `_looks_like_lotto_header`
(data_fetcher.py:95). -/
def headerExtraKeywords : List String := ["chance", "bonus", "complementaire"]

/-- Embedding of `_looks_like_lotto_header` (data_fetcher.py:84-98). -/
def looksLikeLottoHeader (headers : List String) : Bool :=
  if headers.isEmpty then false
  else
    (headers.any (fun h => containsS h "date"))
      && decide (5 ≤ (headers.countP
            (fun h => (headerMainPfxs.any (fun p => startsS h p))
              && !(containsS h "tirage"))))
      && (headers.any (fun h => containsAnyS h headerExtraKeywords))

/-- Normalization of one raw worksheet row for header detection
(data_fetcher.py:110-113): empty cells stay empty, others go through the
header normalizer `nh`. -/
def normRow (nh : String → String) (row : List String) : List String :=
  row.map (fun c => if c = "" then "" else nh c)

/-- Header scan of `_prepare_lotto_rows` (data_fetcher.py:109-119): rows with
no non-empty normalized cell are skipped, the first row recognized as a header
stops the scan, yielding the normalized header row and the remaining rows. -/
def headerScan (nh : String → String) :
    List (List String) → Option (List String × List (List String))
  | [] => none
  | r :: rs =>
    if (normRow nh r).any (fun c => c ≠ "") && looksLikeLottoHeader (normRow nh r) then
      some (normRow nh r, rs)
    else headerScan nh rs

/-- The column-position → key map built from the selected header row
(data_fetcher.py:118): positions with an empty normalized header are dropped. -/
def headerMapOf (nr : List String) : List (Nat × String) :=
  nr.enum.filter (fun p => p.2 ≠ "")

/-- Python dict assignment `row_data[key] = value`: an existing key keeps its
position but takes the new value, a new key is appended. -/
def dictInsert (m : Row) (k v : String) : Row :=
  if m.any (fun p => p.1 = k) then m.map (fun p => if p.1 = k then (k, v) else p)
  else m ++ [(k, v)]

/-- Data-row assembly of `_prepare_lotto_rows` (data_fetcher.py:124-133):
cells at positions without a header key and empty cell values are skipped. -/
def rowDataOf (hmap : List (Nat × String)) (row : List String) : Row :=
  row.enum.foldl
    (fun acc p =>
      match (List.find? (fun q => q.1 = p.1) hmap).map (·.2) with
      | none => acc
      | some k => if p.2 = "" then acc else dictInsert acc k p.2)
    []

/-- Embedding of `_prepare_lotto_rows` (data_fetcher.py:101-136): locate the
header (or fail with the header-not-found error), then turn every following
row into a key→value dict, dropping rows that end up empty. -/
def prepareLottoRows (nh : String → String) (rows : List (List String)) :
    Except FetchErr (List Row) :=
  match headerScan nh rows with
  | none => .error .headerNotFound
  | some (nr, rest) =>
    .ok ((rest.map (rowDataOf (headerMapOf nr))).filter (fun r => decide (r ≠ [])))

/-! ### Frequency prediction engine (`predictions.py`)

A `collections.Counter` is embedded as an association list of
(number, count) pairs in key insertion order, which is exactly the order
`Counter.most_common` falls back to on equal counts (Python sorts are
stable and dict iteration follows key insertion order). -/

/-- One `counter[x] += 1` step of `Counter.update`: an existing key is bumped
in place, a new key is appended. -/
def counterBump (c : List (Int × Nat)) (x : Int) : List (Int × Nat) :=
  if c.any (fun p => p.1 = x) then
    c.map (fun p => if p.1 = x then (p.1, p.2 + 1) else p)
  else c ++ [(x, 1)]

/-- Embedding of `_counter_from_draws` (predictions.py:21-25). -/
def counterFromDraws (draws : List (List Int)) : List (Int × Nat) :=
  draws.foldl (fun c draw => draw.foldl counterBump c) []

/-- The sort order of `Counter.most_common()`: descending by count; as a
stable sort this keeps insertion order among equal counts. -/
def countGe (a b : Int × Nat) : Prop := b.2 ≤ a.2

instance : DecidableRel countGe := fun a b => inferInstanceAs (Decidable (b.2 ≤ a.2))

instance : IsTotal (Int × Nat) countGe := ⟨fun a b => Nat.le_total b.2 a.2⟩

instance : IsTrans (Int × Nat) countGe := ⟨fun _ _ _ h h' => Nat.le_trans h' h⟩

/-- Embedding of `Counter.most_common()` on our counter representation. -/
def mostCommon (c : List (Int × Nat)) : List (Int × Nat) :=
  List.insertionSort countGe c

/-- Python `range(1, total + 1)` as a list of `Int`. -/
def pyRange1 (total : Nat) : List Int :=
  (List.range' 1 total).map Int.ofNat

/-- Embedding of `_select_top_numbers` (predictions.py:28-32). -/
def selectTopNumbers (c : List (Int × Nat)) (total picks : Nat) : List Int :=
  let ordered := (mostCommon c).map (·.1)
  let remaining := (pyRange1 total).filter (fun n => decide (n ∉ ordered))
  let combined := ordered ++ remaining
  List.insertionSort (· ≤ ·) (combined.take picks)

/-- The candidate pool of `_select_avoiding_recent` (predictions.py:37): the
full range minus the numbers of the most recent draw. -/
def avoidPool (recent : List Int) (total : Nat) : List Int :=
  (pyRange1 total).filter (fun n => decide (n ∉ recent))

/-- The pool `random.sample` actually draws from (predictions.py:37-39): the
complement, or the full range when the complement is too small. -/
def chosenPool (recent : List Int) (total picks : Nat) : List Int :=
  let pool := avoidPool recent total
  if pool.length < picks then pyRange1 total else pool

/-- The possible outcomes of `random.sample(pool, k=k)` on a
duplicate-free pool: any duplicate-free length-`k` selection of its
elements. -/
def SampleOf (pool : List Int) (k : Nat) (s : List Int) : Prop :=
  s.length = k ∧ s.Nodup ∧ ∀ x ∈ s, x ∈ pool

/-- Relational embedding of `_select_avoiding_recent` (predictions.py:36-42):
`out` is a possible return value iff it is the ascending sort of some sample
from the chosen pool. -/
def MethodCResult (recent : List Int) (total picks : Nat) (out : List Int) : Prop :=
  ∃ s, SampleOf (chosenPool recent total picks) picks s
    ∧ out = List.insertionSort (· ≤ ·) s

/-- A three-row worksheet with one decorative row above the real header. -/
def sheet6 : List (List String) :=
  [["statistiques"],
   ["date_de_tirage", "boule_1", "boule_2", "boule_3", "boule_4", "boule_5",
    "numero_chance"],
   ["01/01/2024", "1", "2", "3", "4", "5", "6"]]

/-- The header row of `sheet6`. -/
def hdr6 : List String :=
  ["date_de_tirage", "boule_1", "boule_2", "boule_3", "boule_4", "boule_5",
   "numero_chance"]

/-- Tag each counter entry with its position (insertion order). -/
def withIdx : List (Int × Nat) → Nat → List ((Int × Nat) × Nat)
  | [], _ => []
  | p :: ps, i => (p, i) :: withIdx ps (i + 1)

/-- The count order lifted to position-tagged entries. -/
def countGeI : ((Int × Nat) × Nat) → ((Int × Nat) × Nat) → Prop :=
  fun a b => countGe a.1 b.1

instance : DecidableRel countGeI :=
  fun a b => inferInstanceAs (Decidable (countGe a.1 b.1))

/-- Specification ranking order after amendment: strictly greater count first,
ties resolved by the earlier insertion position. -/
def countIdxLt (a b : (Int × Nat) × Nat) : Prop :=
  b.1.2 < a.1.2 ∨ (a.1.2 = b.1.2 ∧ a.2 ≤ b.2)

instance : DecidableRel countIdxLt := fun a b => by
  unfold countIdxLt
  infer_instance

/-- The claim's original ranking order: descending count, ties resolved by
ascending number value. -/
def countValLt (a b : Int × Nat) : Prop :=
  b.2 < a.2 ∨ (a.2 = b.2 ∧ a.1 ≤ b.1)

instance : DecidableRel countValLt := fun a b => by
  unfold countValLt
  infer_instance

/-- The selection procedure exactly as the claim words it (descending count,
ties by ascending value, pad with smallest unobserved, sort ascending). -/
def selectTopValueTie (c : List (Int × Nat)) (total picks : Nat) : List Int :=
  let ordered := (List.insertionSort countValLt c).map (·.1)
  let remaining := (pyRange1 total).filter (fun n => decide (n ∉ ordered))
  List.insertionSort (· ≤ ·) ((ordered ++ remaining).take picks)

/-- The selection procedure as the amended claim words it: rank by strictly
descending count with ties broken by first-insertion order into the counter
(made explicit through position tags and the total order `countIdxLt`), pad
with the smallest unobserved numbers ascending, sort ascending. -/
def selectTopSpecStable (c : List (Int × Nat)) (total picks : Nat) : List Int :=
  let ordered := (List.insertionSort countIdxLt (withIdx c 0)).map (·.1.1)
  let remaining := (pyRange1 total).filter (fun n => decide (n ∉ ordered))
  List.insertionSort (· ≤ ·) ((ordered ++ remaining).take picks)

/-! ### Concrete fixtures used by witnesses and counterexamples -/

/-- A concrete stand-in for the external date parser: every string parses to
day 7. -/
def pdp0 : String → Option Nat := fun _ => some 7

/-- The empty session. -/
def sess0 : Sess := ⟨[], [], [], []⟩

/-- A well-formed Loto data row. -/
def rowL1 : Row :=
  [("date", "01/01/2024"), ("boule_1", "5"), ("boule_2", "3"), ("boule_3", "11"),
   ("boule_4", "22"), ("boule_5", "41"), ("chance", "9")]

/-- The canonical record ingested from `rowL1` under `pdp0`. -/
def recL1 : LotoRec := ⟨7, none, [3, 5, 11, 22, 41], 9⟩

/-- The session state after ingesting `rowL1` into the empty session. -/
def sessL1 : Sess := ⟨[recL1], [], [], []⟩

/-- A Loto data row with only four main numbers (cardinality violation). -/
def rowL4 : Row :=
  [("date", "01/01/2024"), ("boule_1", "1"), ("boule_2", "2"), ("boule_3", "3"),
   ("boule_4", "4"), ("chance", "9")]

/-- A Loto data row whose first main-number cell is non-numeric. -/
def rowLBad : Row := [("date", "01/01/2024"), ("boule_1", "abc")]

/-- A Loto data row whose number columns match none of the known prefixes, so
only the positional fallback can find them. -/
def rowLFb : Row := [("date", "01/01/2024"), ("ball_1", "4"), ("ball_2", "9")]

/-- A EuroMillions data row whose main columns use the `n_` naming, so that
`_extract_numbers(row, "boule_")` finds nothing. -/
def rowE9 : Row :=
  [("date", "01/01/2024"), ("n_1", "2"), ("n_2", "7"), ("n_3", "14"),
   ("n_4", "25"), ("n_5", "33"), ("etoile_1", "3"), ("etoile_2", "9")]

/-- A well-formed EuroMillions data row. -/
def rowE1 : Row :=
  [("date", "01/01/2024"), ("boule_1", "5"), ("boule_2", "3"), ("boule_3", "11"),
   ("boule_4", "22"), ("boule_5", "41"), ("etoile_1", "9"), ("etoile_2", "3")]

/-- The canonical record ingested from `rowE1` under `pdp0`. -/
def recE1 : EuroRec := ⟨7, none, [3, 5, 11, 22, 41], [3, 9]⟩

/-- The session state after ingesting `rowE1` into the empty session. -/
def sessE1 : Sess := ⟨[], [], [recE1], []⟩

/-! ### Supporting lemmas -/

theorem chosenPool_mem_range {recent : List Int} {total picks : Nat} {x : Int}
    (hx : x ∈ chosenPool recent total picks) : x ∈ pyRange1 total := by
  unfold chosenPool at hx
  by_cases h : (avoidPool recent total).length < picks
  · simpa [h] using hx
  · simp only [h, if_neg, if_false] at hx
    exact (List.mem_filter.mp hx).1

theorem avoidPool_not_recent {recent : List Int} {total : Nat} {x : Int}
    (hx : x ∈ avoidPool recent total) : x ∉ recent := by
  have := (List.mem_filter.mp hx).2
  simpa using this

/-! ### Claim C10 -/

/-- C10: `_select_top_numbers` performs no range check: for the frequency
counter built from a (corrupt) history containing the out-of-range number 999,
the selection for the Loto main pool (range 1..49, 5 picks) contains 999. -/
theorem claim_C10_no_range_check :
    (999 : Int) ∈ selectTopNumbers (counterFromDraws [[999], [999]]) 49 5
      ∧ (999 : Int) ∉ pyRange1 49 := by decide

/-! ### Claim C8 -/

/-- C8: every sample Method C (`_select_avoiding_recent`) can return has
exactly `picks` entries, is duplicate-free, is sorted ascending, stays inside
the game's full range, avoids every number of the most recent draw whenever
the complement pool is large enough, and otherwise the sample is drawn from
the full range. -/
theorem claim_C8_method_c_avoids_recent :
    ∀ (recent : List Int) (total picks : Nat) (out : List Int),
      MethodCResult recent total picks out →
        out.length = picks ∧ out.Sorted (· ≤ ·) ∧ out.Nodup ∧
        (∀ x ∈ out, x ∈ pyRange1 total) ∧
        (picks ≤ (avoidPool recent total).length → ∀ x ∈ out, x ∉ recent) ∧
        ((avoidPool recent total).length < picks →
          chosenPool recent total picks = pyRange1 total) := by
  rintro recent total picks out ⟨s, ⟨hlen, hnd, hsub⟩, hout⟩
  have hperm : List.Perm (List.insertionSort (· ≤ ·) s) s := List.perm_insertionSort _ s
  subst hout
  refine ⟨by rw [hperm.length_eq, hlen], List.sorted_insertionSort _ s,
    hperm.nodup_iff.mpr hnd, ?_, ?_, ?_⟩
  · intro x hx
    exact chosenPool_mem_range (hsub x (hperm.mem_iff.mp hx))
  · intro hge x hx
    have hxs : x ∈ chosenPool recent total picks := hsub x (hperm.mem_iff.mp hx)
    have hpool : chosenPool recent total picks = avoidPool recent total := by
      unfold chosenPool
      simp [Nat.not_lt.mpr hge]
    rw [hpool] at hxs
    exact avoidPool_not_recent hxs
  · intro hlt
    unfold chosenPool
    simp [hlt]

/-- Witness for C8: with the most recent draw `[1,2,3]`, range `1..10` and
3 picks, `[4,5,6]` is a possible Method C output, and the claimed properties
hold for it. -/
theorem claim_C8_witness :
    MethodCResult [1, 2, 3] 10 3 [4, 5, 6] ∧
      ([4, 5, 6] : List Int).length = 3 ∧
      (∀ x ∈ ([4, 5, 6] : List Int), x ∉ ([1, 2, 3] : List Int)) := by
  have hres : MethodCResult [1, 2, 3] 10 3 [4, 5, 6] := by
    refine ⟨[4, 5, 6], ⟨by decide, by decide, by decide⟩, by decide⟩
  have h := claim_C8_method_c_avoids_recent [1, 2, 3] 10 3 [4, 5, 6] hres
  exact ⟨hres, h.1, h.2.2.2.2.1 (by decide)⟩

/-! ### Claim C6 -/

theorem looksLike_imp_any_nonempty {nr : List String}
    (h : looksLikeLottoHeader nr = true) : nr.any (fun c => c ≠ "") = true := by
  unfold looksLikeLottoHeader at h
  by_cases he : nr.isEmpty
  · rw [if_pos he] at h
    exact absurd h (by simp)
  · rw [if_neg he] at h
    simp only [Bool.and_eq_true] at h
    obtain ⟨⟨h1, _⟩, _⟩ := h
    obtain ⟨hdr, hmem, hdate⟩ := List.any_eq_true.mp h1
    refine List.any_eq_true.mpr ⟨hdr, hmem, ?_⟩
    simp only [decide_eq_true_eq]
    intro hempty
    subst hempty
    exact absurd hdate (by decide)

theorem headerScan_cons (nh : String → String) (r : List String)
    (rs : List (List String)) :
    headerScan nh (r :: rs) =
      if looksLikeLottoHeader (normRow nh r) = true then some (normRow nh r, rs)
      else headerScan nh rs := by
  have hcond : ((normRow nh r).any (fun c => c ≠ "")
      && looksLikeLottoHeader (normRow nh r)) = looksLikeLottoHeader (normRow nh r) := by
    by_cases h : looksLikeLottoHeader (normRow nh r) = true
    · rw [h, looksLike_imp_any_nonempty h]
      rfl
    · rw [Bool.eq_false_iff.mpr h, Bool.and_false]
  conv_lhs => unfold headerScan
  rw [hcond]

/-- C6: a normalized spreadsheet row qualifies as the header row iff it has a
cell containing "date", at least five cells starting with a main-number
prefix (boule/numero/num/n_) without containing "tirage", and a cell
containing an extra keyword (chance/bonus/complementaire); the first
qualifying row in scan order is selected and all rows before it are
discarded (the data rows are exactly the rows after it); if no row qualifies,
the scan reports no header and `_prepare_lotto_rows` fails with the
header-not-found error. -/
theorem claim_C6_header_detection :
    (∀ hs : List String,
        looksLikeLottoHeader hs = true ↔
          ((∃ h ∈ hs, containsS h "date" = true) ∧
           5 ≤ (hs.filter (fun h => (headerMainPfxs.any (fun p => startsS h p))
                  && !(containsS h "tirage"))).length ∧
           (∃ h ∈ hs, ∃ kw ∈ headerExtraKeywords, containsS h kw = true))) ∧
    (∀ (nh : String → String) (rows : List (List String)) nr rest,
        headerScan nh rows = some (nr, rest) →
        ∃ i, i < rows.length ∧ nr = normRow nh (rows.getD i []) ∧
          rest = rows.drop (i + 1) ∧ looksLikeLottoHeader nr = true ∧
          ∀ j < i, looksLikeLottoHeader (normRow nh (rows.getD j [])) = false) ∧
    (∀ (nh : String → String) (rows : List (List String)),
        headerScan nh rows = none ↔
          ∀ r ∈ rows, looksLikeLottoHeader (normRow nh r) = false) ∧
    (∀ (nh : String → String) (rows : List (List String)),
        (∀ r ∈ rows, looksLikeLottoHeader (normRow nh r) = false) →
          prepareLottoRows nh rows = .error .headerNotFound) := by
  have hscan_none : ∀ (nh : String → String) (rows : List (List String)),
      headerScan nh rows = none ↔
        ∀ r ∈ rows, looksLikeLottoHeader (normRow nh r) = false := by
    intro nh rows
    induction rows with
    | nil => simp [headerScan]
    | cons r rs ih =>
      rw [headerScan_cons]
      by_cases hc : looksLikeLottoHeader (normRow nh r) = true
      · rw [if_pos hc]
        constructor
        · intro h
          cases h
        · intro hall
          exact absurd (hall r (by simp)) (by simp [hc])
      · rw [if_neg hc, ih]
        constructor
        · rintro hall r' hr'
          rcases List.mem_cons.mp hr' with rfl | hmem
          · exact Bool.eq_false_iff.mpr hc
          · exact hall r' hmem
        · intro hall r' hmem
          exact hall r' (List.mem_cons_of_mem r hmem)
  refine ⟨?_, ?_, hscan_none, ?_⟩
  · intro hs
    unfold looksLikeLottoHeader
    by_cases he : hs.isEmpty
    · rw [if_pos he]
      have : hs = [] := by simpa using he
      subst this
      simp
    · rw [if_neg he]
      simp only [Bool.and_eq_true, List.any_eq_true, decide_eq_true_eq,
        List.countP_eq_length_filter, containsAnyS, and_assoc]
  · intro nh rows
    induction rows with
    | nil =>
      intro nr rest h
      simp [headerScan] at h
    | cons r rs ih =>
      intro nr rest h
      rw [headerScan_cons] at h
      by_cases hc : looksLikeLottoHeader (normRow nh r) = true
      · rw [if_pos hc] at h
        injection h with h'
        rw [Prod.mk.injEq] at h'
        obtain ⟨h1, h2⟩ := h'
        refine ⟨0, by simp, by simp [h1.symm], by simp [h2.symm], h1 ▸ hc, ?_⟩
        intro j hj
        exact absurd hj (Nat.not_lt_zero j)
      · rw [if_neg hc] at h
        obtain ⟨i, hilen, hnr, hrest, hlooks, hbefore⟩ := ih nr rest h
        refine ⟨i + 1, by simpa using hilen, by simpa using hnr,
          by simpa using hrest, hlooks, ?_⟩
        intro j hj
        rcases j with _ | j'
        · simpa using Bool.eq_false_iff.mpr hc
        · simpa using hbefore j' (by omega)
  · intro nh rows hall
    unfold prepareLottoRows
    rw [(hscan_none nh rows).mpr hall]

/-- Witness for C6: on `sheet6` the real header (row index 1) is selected,
the decorative row before it does not qualify, and a sheet with no qualifying
row makes `_prepare_lotto_rows` fail with the header-not-found error. -/
theorem claim_C6_witness :
    (∃ i, i < sheet6.length ∧ hdr6 = normRow id (sheet6.getD i []) ∧
        [["01/01/2024", "1", "2", "3", "4", "5", "6"]] = sheet6.drop (i + 1) ∧
        looksLikeLottoHeader hdr6 = true ∧
        ∀ j < i, looksLikeLottoHeader (normRow id (sheet6.getD j [])) = false) ∧
      prepareLottoRows id [["statistiques"], ["junk", "rows"]] = .error .headerNotFound :=
  ⟨claim_C6_header_detection.2.1 id sheet6 hdr6
      [["01/01/2024", "1", "2", "3", "4", "5", "6"]] (by decide),
   claim_C6_header_detection.2.2.2 id [["statistiques"], ["junk", "rows"]] (by decide)⟩

/-! ### Claim C3

`Counter.most_common()` sorts by descending count with a *stable* sort, so
ties keep the order in which keys were first inserted into the counter — not
ascending numeric order as the claim states. We refute the value-tie reading
on a concrete counter and prove the pipeline equal to a specification-level
ranking whose tie-break is the counter insertion position. -/

theorem orderedInsert_congr (r s : ((Int × Nat) × Nat) → ((Int × Nat) × Nat) → Prop)
    [DecidableRel r] [DecidableRel s] (x : (Int × Nat) × Nat) :
    ∀ l : List ((Int × Nat) × Nat), (∀ y ∈ l, r x y ↔ s x y) →
      List.orderedInsert r x l = List.orderedInsert s x l := by
  intro l
  induction l with
  | nil => intro _; rfl
  | cons b l ih =>
    intro h
    by_cases hr : r x b
    · simp only [List.orderedInsert, if_pos hr, if_pos ((h b (by simp)).mp hr)]
    · simp only [List.orderedInsert, if_neg hr,
        if_neg (fun hs => hr ((h b (by simp)).mpr hs))]
      rw [ih (fun y hy => h y (List.mem_cons_of_mem b hy))]

theorem withIdx_le (l : List (Int × Nat)) : ∀ i, ∀ p ∈ withIdx l i, i ≤ p.2 := by
  induction l with
  | nil => intro i p hp; cases hp
  | cons q l ih =>
    intro i p hp
    rcases List.mem_cons.mp hp with rfl | hmem
    · exact Nat.le_refl i
    · exact Nat.le_of_succ_le (ih (i + 1) p hmem)

theorem withIdx_pairwise (l : List (Int × Nat)) :
    ∀ i, (withIdx l i).Pairwise (fun a b => a.2 < b.2) := by
  induction l with
  | nil => intro i; exact List.Pairwise.nil
  | cons q l ih =>
    intro i
    refine List.pairwise_cons.mpr ⟨?_, ih (i + 1)⟩
    intro p hp
    exact Nat.lt_of_lt_of_le (Nat.lt_succ_self i) (withIdx_le l (i + 1) p hp)

theorem withIdx_map_fst (l : List (Int × Nat)) : ∀ i, (withIdx l i).map (·.1) = l := by
  induction l with
  | nil => intro _; rfl
  | cons q l ih =>
    intro i
    simp only [withIdx, List.map_cons, ih (i + 1)]

theorem countGeI_iff_countIdxLt {x y : (Int × Nat) × Nat} (h : x.2 < y.2) :
    countGeI x y ↔ countIdxLt x y := by
  unfold countGeI countGe countIdxLt
  omega

theorem insertionSort_stable_eq :
    ∀ l : List ((Int × Nat) × Nat), l.Pairwise (fun a b => a.2 < b.2) →
      List.insertionSort countGeI l = List.insertionSort countIdxLt l := by
  intro l
  induction l with
  | nil => intro _; rfl
  | cons x xs ih =>
    intro h
    have hpair := List.pairwise_cons.mp h
    simp only [List.insertionSort]
    rw [ih hpair.2]
    apply orderedInsert_congr
    intro y hy
    exact countGeI_iff_countIdxLt
      (hpair.1 y ((List.mem_insertionSort countIdxLt).mp hy))

theorem map_orderedInsert_fst (x : (Int × Nat) × Nat) :
    ∀ l : List ((Int × Nat) × Nat),
      (List.orderedInsert countGeI x l).map (·.1) =
        List.orderedInsert countGe x.1 (l.map (·.1)) := by
  intro l
  induction l with
  | nil => rfl
  | cons b l ih =>
    by_cases hr : countGeI x b
    · have hr' : countGe x.1 b.1 := hr
      simp only [List.orderedInsert, List.map_cons, if_pos hr, if_pos hr']
    · have hr' : ¬countGe x.1 b.1 := hr
      simp only [List.orderedInsert, List.map_cons, if_neg hr, if_neg hr']
      rw [ih]

theorem map_insertionSort_fst :
    ∀ l : List ((Int × Nat) × Nat),
      (List.insertionSort countGeI l).map (·.1) =
        List.insertionSort countGe (l.map (·.1)) := by
  intro l
  induction l with
  | nil => rfl
  | cons x xs ih =>
    simp only [List.insertionSort, List.map_cons]
    rw [map_orderedInsert_fst, ih]

/-- Counterexample for C3: for the counter built from the draw history
`[[3],[2]]` (both numbers seen once, 3 first), `_select_top_numbers` returns
`[3]` for one pick, while ranking with ties broken by ascending number value
would return `[2]`: the claimed tie-break does not describe the code. -/
theorem claim_C3_counterexample :
    selectTopNumbers (counterFromDraws [[3], [2]]) 49 1 = [3] ∧
      selectTopValueTie (counterFromDraws [[3], [2]]) 49 1 = [2] ∧
      selectTopNumbers (counterFromDraws [[3], [2]]) 49 1 ≠
        selectTopValueTie (counterFromDraws [[3], [2]]) 49 1 := by decide

/-- C3 (amended): for every frequency counter, `_select_top_numbers` (used by
Method A on the whole history and by Method B on the 30 most recent draws)
equals the specification procedure that ranks numbers by descending count
with ties broken by first-insertion order into the counter, takes the top
`picks`, pads with the smallest unobserved numbers of the range in ascending
order when fewer distinct numbers were observed, and sorts the result
ascending. -/
theorem claim_C3_rank_pad_sort :
    ∀ (c : List (Int × Nat)) (total picks : Nat),
      selectTopNumbers c total picks = selectTopSpecStable c total picks := by
  intro c total picks
  have hordered : (mostCommon c).map (·.1) =
      (List.insertionSort countIdxLt (withIdx c 0)).map (·.1.1) := by
    calc (mostCommon c).map (·.1)
        = (List.insertionSort countGe ((withIdx c 0).map (·.1))).map (·.1) := by
          rw [withIdx_map_fst c 0]; rfl
      _ = ((List.insertionSort countGeI (withIdx c 0)).map (·.1)).map (·.1) := by
          rw [map_insertionSort_fst]
      _ = (List.insertionSort countGeI (withIdx c 0)).map (·.1.1) := by
          rw [List.map_map]; rfl
      _ = (List.insertionSort countIdxLt (withIdx c 0)).map (·.1.1) := by
          rw [insertionSort_stable_eq _ (withIdx_pairwise c 0)]
  simp only [selectTopNumbers, selectTopSpecStable, mostCommon] at hordered ⊢
  exact congrArg
    (fun ord => List.insertionSort (· ≤ ·)
      (List.take picks (ord ++ List.filter (fun n => decide (n ∉ ord)) (pyRange1 total))))
    hordered

/-! ### Session and ingestion-loop lemmas -/

theorem lotoVisible_commit (s : Sess) : lotoVisible (commitSess s) = lotoVisible s := by
  simp [lotoVisible, commitSess]

theorem euroVisible_commit (s : Sess) : euroVisible (commitSess s) = euroVisible s := by
  simp [euroVisible, commitSess]

theorem hasLKey_commit (s : Sess) (d : LotoRec) :
    hasLKey (commitSess s) d = hasLKey s d := by
  unfold hasLKey
  rw [lotoVisible_commit]

theorem hasEKey_commit (s : Sess) (d : EuroRec) :
    hasEKey (commitSess s) d = hasEKey s d := by
  unfold hasEKey
  rw [euroVisible_commit]

theorem hasLKey_addLoto {s : Sess} (d : LotoRec) {x : LotoRec}
    (h : hasLKey s x = true) : hasLKey (addLotoPending s d) x = true := by
  rcases List.any_eq_true.mp h with ⟨e, he, hm⟩
  refine List.any_eq_true.mpr ⟨e, ?_, hm⟩
  simp only [lotoVisible, addLotoPending, List.mem_append] at he ⊢
  tauto

theorem hasEKey_addEuro {s : Sess} (d : EuroRec) {x : EuroRec}
    (h : hasEKey s x = true) : hasEKey (addEuroPending s d) x = true := by
  rcases List.any_eq_true.mp h with ⟨e, he, hm⟩
  refine List.any_eq_true.mpr ⟨e, ?_, hm⟩
  simp only [euroVisible, addEuroPending, List.mem_append] at he ⊢
  tauto

theorem hasLKey_addLoto_self (s : Sess) (d : LotoRec) :
    hasLKey (addLotoPending s d) d = true := by
  refine List.any_eq_true.mpr ⟨d, ?_, ?_⟩
  · simp [lotoVisible, addLotoPending]
  · simp [matchLKey]

theorem hasEKey_addEuro_self (s : Sess) (d : EuroRec) :
    hasEKey (addEuroPending s d) d = true := by
  refine List.any_eq_true.mpr ⟨d, ?_, ?_⟩
  · simp [euroVisible, addEuroPending]
  · simp [matchEKey]

/-- State evolution of the loto row loop: the committed stores and the euro
pending list never change mid-loop, the loto pending list only grows by
records produced by `lotoCanon`, and on success the returned count is the
number of rows appended. -/
theorem lotoLoop_state (pdp : String → Option Nat) :
    ∀ (rows : List Row) (s : Sess) (n : Nat),
      (lotoLoop pdp rows s n).2.lotoDb = s.lotoDb ∧
      (lotoLoop pdp rows s n).2.euroDb = s.euroDb ∧
      (lotoLoop pdp rows s n).2.euroPending = s.euroPending ∧
      ∃ new, (lotoLoop pdp rows s n).2.lotoPending = s.lotoPending ++ new ∧
        (∀ d ∈ new, ∃ row ∈ rows, lotoCanon pdp row = .ok (some d)) ∧
        (∀ m, (lotoLoop pdp rows s n).1 = .ok m → m = n + new.length) := by
  intro rows
  induction rows with
  | nil =>
    intro s n
    refine ⟨rfl, rfl, rfl, [], by simp [lotoLoop], by simp, ?_⟩
    intro m hm
    simp only [lotoLoop] at hm
    injection hm with hm'
    simp only [List.length_nil]
    omega
  | cons row rest ih =>
    intro s n
    simp only [lotoLoop]
    cases hcanon : lotoCanon pdp row with
    | error e =>
      dsimp only
      refine ⟨rfl, rfl, rfl, [], by simp, by simp, ?_⟩
      intro m hm
      exact Except.noConfusion hm
    | ok o =>
      cases o with
      | none =>
        dsimp only
        obtain ⟨h1, h2, h3, new, hpend, hprov, hcount⟩ := ih s n
        exact ⟨h1, h2, h3, new, hpend,
          fun d hd => (hprov d hd).elim
            (fun r hr => ⟨r, List.mem_cons_of_mem row hr.1, hr.2⟩),
          hcount⟩
      | some d =>
        dsimp only
        by_cases hk : hasLKey s d = true
        · rw [if_pos hk]
          obtain ⟨h1, h2, h3, new, hpend, hprov, hcount⟩ := ih s n
          exact ⟨h1, h2, h3, new, hpend,
            fun d' hd' => (hprov d' hd').elim
              (fun r hr => ⟨r, List.mem_cons_of_mem row hr.1, hr.2⟩),
            hcount⟩
        · rw [if_neg hk]
          obtain ⟨h1, h2, h3, new, hpend, hprov, hcount⟩ := ih (addLotoPending s d) (n + 1)
          refine ⟨h1, h2, h3, d :: new, ?_, ?_, ?_⟩
          · rw [hpend]
            simp [addLotoPending]
          · intro d' hd'
            rcases List.mem_cons.mp hd' with rfl | hmem
            · exact ⟨row, List.mem_cons_self row rest, hcanon⟩
            · obtain ⟨r, hr1, hr2⟩ := hprov d' hmem
              exact ⟨r, List.mem_cons_of_mem row hr1, hr2⟩
          · intro m hm
            have := hcount m hm
            simp only [List.length_cons]
            omega

/-- State evolution of the euromillions row loop, mirror of
`lotoLoop_state`. -/
theorem euroLoop_state (pdp : String → Option Nat) :
    ∀ (rows : List Row) (s : Sess) (n : Nat),
      (euroLoop pdp rows s n).2.euroDb = s.euroDb ∧
      (euroLoop pdp rows s n).2.lotoDb = s.lotoDb ∧
      (euroLoop pdp rows s n).2.lotoPending = s.lotoPending ∧
      ∃ new, (euroLoop pdp rows s n).2.euroPending = s.euroPending ++ new ∧
        (∀ d ∈ new, ∃ row ∈ rows, euroCanon pdp row = .ok (some d)) ∧
        (∀ m, (euroLoop pdp rows s n).1 = .ok m → m = n + new.length) := by
  intro rows
  induction rows with
  | nil =>
    intro s n
    refine ⟨rfl, rfl, rfl, [], by simp [euroLoop], by simp, ?_⟩
    intro m hm
    simp only [euroLoop] at hm
    injection hm with hm'
    simp only [List.length_nil]
    omega
  | cons row rest ih =>
    intro s n
    simp only [euroLoop]
    cases hcanon : euroCanon pdp row with
    | error e =>
      dsimp only
      refine ⟨rfl, rfl, rfl, [], by simp, by simp, ?_⟩
      intro m hm
      exact Except.noConfusion hm
    | ok o =>
      cases o with
      | none =>
        dsimp only
        obtain ⟨h1, h2, h3, new, hpend, hprov, hcount⟩ := ih s n
        exact ⟨h1, h2, h3, new, hpend,
          fun d hd => (hprov d hd).elim
            (fun r hr => ⟨r, List.mem_cons_of_mem row hr.1, hr.2⟩),
          hcount⟩
      | some d =>
        dsimp only
        by_cases hk : hasEKey s d = true
        · rw [if_pos hk]
          obtain ⟨h1, h2, h3, new, hpend, hprov, hcount⟩ := ih s n
          exact ⟨h1, h2, h3, new, hpend,
            fun d' hd' => (hprov d' hd').elim
              (fun r hr => ⟨r, List.mem_cons_of_mem row hr.1, hr.2⟩),
            hcount⟩
        · rw [if_neg hk]
          obtain ⟨h1, h2, h3, new, hpend, hprov, hcount⟩ := ih (addEuroPending s d) (n + 1)
          refine ⟨h1, h2, h3, d :: new, ?_, ?_, ?_⟩
          · rw [hpend]
            simp [addEuroPending]
          · intro d' hd'
            rcases List.mem_cons.mp hd' with rfl | hmem
            · exact ⟨row, List.mem_cons_self row rest, hcanon⟩
            · obtain ⟨r, hr1, hr2⟩ := hprov d' hmem
              exact ⟨r, List.mem_cons_of_mem row hr1, hr2⟩
          · intro m hm
            have := hcount m hm
            simp only [List.length_cons]
            omega

/-- Key coverage of a successful loto loop run: present keys stay present,
and every row that canonicalizes to a record has its key present in the final
state (either it was skipped as a duplicate or it was just inserted). -/
theorem lotoLoop_keys (pdp : String → Option Nat) :
    ∀ (rows : List Row) (s : Sess) (n m : Nat) (sf : Sess),
      lotoLoop pdp rows s n = (.ok m, sf) →
      (∀ d, hasLKey s d = true → hasLKey sf d = true) ∧
      (∀ row ∈ rows, ∃ r, lotoCanon pdp row = .ok r ∧
          ∀ d, r = some d → hasLKey sf d = true) := by
  intro rows
  induction rows with
  | nil =>
    intro s n m sf h
    simp only [lotoLoop] at h
    rw [Prod.mk.injEq] at h
    exact ⟨fun d hd => h.2 ▸ hd, by simp⟩
  | cons row rest ih =>
    intro s n m sf h
    simp only [lotoLoop] at h
    cases hcanon : lotoCanon pdp row with
    | error e =>
      rw [hcanon] at h
      dsimp only at h
      rw [Prod.mk.injEq] at h
      exact absurd h.1 (by simp)
    | ok o =>
      rw [hcanon] at h
      cases o with
      | none =>
        dsimp only at h
        obtain ⟨hmono, hcov⟩ := ih s n m sf h
        refine ⟨hmono, ?_⟩
        intro row' hrow'
        rcases List.mem_cons.mp hrow' with rfl | hmem
        · exact ⟨none, hcanon, by simp⟩
        · exact hcov row' hmem
      | some d =>
        dsimp only at h
        by_cases hk : hasLKey s d = true
        · rw [if_pos hk] at h
          obtain ⟨hmono, hcov⟩ := ih s n m sf h
          refine ⟨hmono, ?_⟩
          intro row' hrow'
          rcases List.mem_cons.mp hrow' with rfl | hmem
          · refine ⟨some d, hcanon, ?_⟩
            intro d' hd'
            injection hd' with hd''
            exact hd'' ▸ hmono d hk
          · exact hcov row' hmem
        · rw [if_neg hk] at h
          obtain ⟨hmono, hcov⟩ := ih (addLotoPending s d) (n + 1) m sf h
          refine ⟨fun x hx => hmono x (hasLKey_addLoto d hx), ?_⟩
          intro row' hrow'
          rcases List.mem_cons.mp hrow' with rfl | hmem
          · refine ⟨some d, hcanon, ?_⟩
            intro d' hd'
            injection hd' with hd''
            exact hd'' ▸ hmono d (hasLKey_addLoto_self s d)
          · exact hcov row' hmem

/-- Key coverage of a successful euromillions loop run, mirror of
`lotoLoop_keys`. -/
theorem euroLoop_keys (pdp : String → Option Nat) :
    ∀ (rows : List Row) (s : Sess) (n m : Nat) (sf : Sess),
      euroLoop pdp rows s n = (.ok m, sf) →
      (∀ d, hasEKey s d = true → hasEKey sf d = true) ∧
      (∀ row ∈ rows, ∃ r, euroCanon pdp row = .ok r ∧
          ∀ d, r = some d → hasEKey sf d = true) := by
  intro rows
  induction rows with
  | nil =>
    intro s n m sf h
    simp only [euroLoop] at h
    rw [Prod.mk.injEq] at h
    exact ⟨fun d hd => h.2 ▸ hd, by simp⟩
  | cons row rest ih =>
    intro s n m sf h
    simp only [euroLoop] at h
    cases hcanon : euroCanon pdp row with
    | error e =>
      rw [hcanon] at h
      dsimp only at h
      rw [Prod.mk.injEq] at h
      exact absurd h.1 (by simp)
    | ok o =>
      rw [hcanon] at h
      cases o with
      | none =>
        dsimp only at h
        obtain ⟨hmono, hcov⟩ := ih s n m sf h
        refine ⟨hmono, ?_⟩
        intro row' hrow'
        rcases List.mem_cons.mp hrow' with rfl | hmem
        · exact ⟨none, hcanon, by simp⟩
        · exact hcov row' hmem
      | some d =>
        dsimp only at h
        by_cases hk : hasEKey s d = true
        · rw [if_pos hk] at h
          obtain ⟨hmono, hcov⟩ := ih s n m sf h
          refine ⟨hmono, ?_⟩
          intro row' hrow'
          rcases List.mem_cons.mp hrow' with rfl | hmem
          · refine ⟨some d, hcanon, ?_⟩
            intro d' hd'
            injection hd' with hd''
            exact hd'' ▸ hmono d hk
          · exact hcov row' hmem
        · rw [if_neg hk] at h
          obtain ⟨hmono, hcov⟩ := ih (addEuroPending s d) (n + 1) m sf h
          refine ⟨fun x hx => hmono x (hasEKey_addEuro d hx), ?_⟩
          intro row' hrow'
          rcases List.mem_cons.mp hrow' with rfl | hmem
          · refine ⟨some d, hcanon, ?_⟩
            intro d' hd'
            injection hd' with hd''
            exact hd'' ▸ hmono d (hasEKey_addEuro_self s d)
          · exact hcov row' hmem

/-- A loto loop run over rows whose canonical records all have their keys
already present inserts nothing and leaves the session untouched. -/
theorem lotoLoop_skip (pdp : String → Option Nat) :
    ∀ (rows : List Row) (s : Sess) (n : Nat),
      (∀ row ∈ rows, ∃ r, lotoCanon pdp row = .ok r ∧
          ∀ d, r = some d → hasLKey s d = true) →
      lotoLoop pdp rows s n = (.ok n, s) := by
  intro rows
  induction rows with
  | nil => intro s n _; rfl
  | cons row rest ih =>
    intro s n h
    obtain ⟨r, hr, hkey⟩ := h row (List.mem_cons_self row rest)
    simp only [lotoLoop]
    rw [hr]
    cases r with
    | none =>
      dsimp only
      exact ih s n (fun row' hm => h row' (List.mem_cons_of_mem row hm))
    | some d =>
      dsimp only
      rw [if_pos (hkey d rfl)]
      exact ih s n (fun row' hm => h row' (List.mem_cons_of_mem row hm))

/-- Mirror of `lotoLoop_skip` for the euromillions loop. -/
theorem euroLoop_skip (pdp : String → Option Nat) :
    ∀ (rows : List Row) (s : Sess) (n : Nat),
      (∀ row ∈ rows, ∃ r, euroCanon pdp row = .ok r ∧
          ∀ d, r = some d → hasEKey s d = true) →
      euroLoop pdp rows s n = (.ok n, s) := by
  intro rows
  induction rows with
  | nil => intro s n _; rfl
  | cons row rest ih =>
    intro s n h
    obtain ⟨r, hr, hkey⟩ := h row (List.mem_cons_self row rest)
    simp only [euroLoop]
    rw [hr]
    cases r with
    | none =>
      dsimp only
      exact ih s n (fun row' hm => h row' (List.mem_cons_of_mem row hm))
    | some d =>
      dsimp only
      rw [if_pos (hkey d rfl)]
      exact ih s n (fun row' hm => h row' (List.mem_cons_of_mem row hm))

theorem pySortedSet_sorted_lt (l : List Int) : (pySortedSet l).Sorted (· < ·) := by
  have hs : (pySortedSet l).Sorted (· ≤ ·) := List.sorted_insertionSort _ _
  have hn : (pySortedSet l).Nodup :=
    (List.perm_insertionSort _ _).nodup_iff.mpr l.nodup_dedup
  exact hs.lt_of_le hn

/-- The record produced by a successful Loto canonicalization has strictly
ascending main numbers, exactly five of them. -/
theorem lotoCanon_inv {pdp : String → Option Nat} {row : Row} {d : LotoRec}
    (h : lotoCanon pdp row = .ok (some d)) :
    d.main_numbers.Sorted (· < ·) ∧ d.main_numbers.length = 5 := by
  unfold lotoCanon at h
  cases h1 : parseDateE pdp row with
  | error e => simp only [h1] at h; exact Except.noConfusion h
  | ok dd =>
  simp only [h1] at h
  cases h2 : parseDrawNumberE row with
  | error e => simp only [h2] at h; exact Except.noConfusion h
  | ok dn =>
  simp only [h2] at h
  cases h3 : lotoNumbersE row with
  | error e => simp only [h3] at h; exact Except.noConfusion h
  | ok nums =>
  simp only [h3] at h
  cases h4 : lotoChanceE row with
  | error e => simp only [h4] at h; exact Except.noConfusion h
  | ok chOpt =>
  simp only [h4] at h
  by_cases h5 : nums.length < 5
  · rw [if_pos h5] at h
    simp at h
  · rw [if_neg h5] at h
    cases chOpt with
    | none => simp at h
    | some ch =>
      dsimp only at h
      by_cases h6 : (pySortedSet nums).length ≠ 5
      · rw [if_pos h6] at h
        simp at h
      · rw [if_neg h6] at h
        injection h with hh
        injection hh with hh2
        rw [← hh2]
        refine ⟨pySortedSet_sorted_lt _, ?_⟩
        dsimp only
        omega

/-- The record produced by a successful EuroMillions canonicalization has
strictly ascending main numbers (five) and star numbers (two). -/
theorem euroCanon_inv {pdp : String → Option Nat} {row : Row} {d : EuroRec}
    (h : euroCanon pdp row = .ok (some d)) :
    d.main_numbers.Sorted (· < ·) ∧ d.main_numbers.length = 5 ∧
      d.star_numbers.Sorted (· < ·) ∧ d.star_numbers.length = 2 := by
  unfold euroCanon at h
  cases h1 : parseDateE pdp row with
  | error e => simp only [h1] at h; exact Except.noConfusion h
  | ok dd =>
  simp only [h1] at h
  cases h2 : parseDrawNumberE row with
  | error e => simp only [h2] at h; exact Except.noConfusion h
  | ok dn =>
  simp only [h2] at h
  cases h3 : extractNumbersE row "boule_" with
  | error e => simp only [h3] at h; exact Except.noConfusion h
  | ok nums =>
  simp only [h3] at h
  cases h4 : extractNumbersE row "etoile_" with
  | error e => simp only [h4] at h; exact Except.noConfusion h
  | ok stars =>
  simp only [h4] at h
  by_cases h5 : (nums.length < 5 || stars.length < 2) = true
  · rw [if_pos h5] at h
    simp at h
  · rw [if_neg h5] at h
    by_cases h6 : (pySortedSet nums).length ≠ 5 ∨ (pySortedSet stars).length ≠ 2
    · rw [if_pos h6] at h
      simp at h
    · rw [if_neg h6] at h
      injection h with hh
      injection hh with hh2
      rw [← hh2]
      push_neg at h6
      exact ⟨pySortedSet_sorted_lt _, h6.1, pySortedSet_sorted_lt _, h6.2⟩

/-! ### Claim C1 -/

/-- C1: every row persisted by `update_loto_draws` / `update_euromillions_draws`
(i.e. any record in the final session that was not already present) has a
strictly ascending, duplicate-free main-number list of exactly 5 entries, and
a strictly ascending, duplicate-free extra-number list of exactly the
profile's size (the singleton chance number for Loto, the two star numbers
for EuroMillions); no record violating these cardinalities is ever added. -/
theorem claim_C1_persisted_rows_canonical :
    (∀ (pdp : String → Option Nat) (src : Except FetchErr (List Row)) (s : Sess)
        (d : LotoRec), d ∈ lotoVisible (updateLotoDraws pdp src s).2 →
        d ∈ lotoVisible s ∨
          (d.main_numbers.Sorted (· < ·) ∧ d.main_numbers.length = 5 ∧
            [d.chance_number].Sorted (· < ·) ∧ [d.chance_number].length = 1)) ∧
    (∀ (pdp : String → Option Nat) (src : Except FetchErr (List Row)) (s : Sess)
        (d : EuroRec), d ∈ euroVisible (updateEuroDraws pdp src s).2 →
        d ∈ euroVisible s ∨
          (d.main_numbers.Sorted (· < ·) ∧ d.main_numbers.length = 5 ∧
            d.star_numbers.Sorted (· < ·) ∧ d.star_numbers.length = 2)) := by
  constructor
  · intro pdp src s d hd
    cases src with
    | error e =>
      left
      simpa [updateLotoDraws] using hd
    | ok rows =>
      have hmid : ∀ x : LotoRec, x ∈ lotoVisible (lotoLoop pdp rows s 0).2 →
          x ∈ lotoVisible s ∨
            (x.main_numbers.Sorted (· < ·) ∧ x.main_numbers.length = 5 ∧
              [x.chance_number].Sorted (· < ·) ∧ [x.chance_number].length = 1) := by
        intro x hx
        obtain ⟨h1, _, _, new, hpend, hprov, _⟩ := lotoLoop_state pdp rows s 0
        unfold lotoVisible at hx
        rw [h1, hpend] at hx
        rcases List.mem_append.mp hx with hdb | hp
        · left
          exact List.mem_append.mpr (Or.inl hdb)
        · rcases List.mem_append.mp hp with hpd | hnew
          · left
            exact List.mem_append.mpr (Or.inr hpd)
          · right
            obtain ⟨row, _, hcanon⟩ := hprov x hnew
            obtain ⟨hs5, hl5⟩ := lotoCanon_inv hcanon
            exact ⟨hs5, hl5, List.sorted_singleton _, rfl⟩
      unfold updateLotoDraws at hd
      dsimp only at hd
      cases hloop : lotoLoop pdp rows s 0 with
      | mk res sMid =>
        rw [hloop] at hd
        have hsnd : (lotoLoop pdp rows s 0).2 = sMid := by rw [hloop]
        cases res with
        | error e =>
          dsimp only at hd
          exact hmid d (by rw [hsnd]; exact hd)
        | ok m =>
          dsimp only at hd
          by_cases hm : m ≠ 0
          · rw [if_pos hm] at hd
            dsimp only at hd
            rw [lotoVisible_commit] at hd
            exact hmid d (by rw [hsnd]; exact hd)
          · rw [if_neg hm] at hd
            dsimp only at hd
            exact hmid d (by rw [hsnd]; exact hd)
  · intro pdp src s d hd
    cases src with
    | error e =>
      left
      simpa [updateEuroDraws] using hd
    | ok rows =>
      have hmid : ∀ x : EuroRec, x ∈ euroVisible (euroLoop pdp rows s 0).2 →
          x ∈ euroVisible s ∨
            (x.main_numbers.Sorted (· < ·) ∧ x.main_numbers.length = 5 ∧
              x.star_numbers.Sorted (· < ·) ∧ x.star_numbers.length = 2) := by
        intro x hx
        obtain ⟨h1, _, _, new, hpend, hprov, _⟩ := euroLoop_state pdp rows s 0
        unfold euroVisible at hx
        rw [h1, hpend] at hx
        rcases List.mem_append.mp hx with hdb | hp
        · left
          exact List.mem_append.mpr (Or.inl hdb)
        · rcases List.mem_append.mp hp with hpd | hnew
          · left
            exact List.mem_append.mpr (Or.inr hpd)
          · right
            obtain ⟨row, _, hcanon⟩ := hprov x hnew
            exact euroCanon_inv hcanon
      unfold updateEuroDraws at hd
      dsimp only at hd
      cases hloop : euroLoop pdp rows s 0 with
      | mk res sMid =>
        rw [hloop] at hd
        have hsnd : (euroLoop pdp rows s 0).2 = sMid := by rw [hloop]
        cases res with
        | error e =>
          dsimp only at hd
          exact hmid d (by rw [hsnd]; exact hd)
        | ok m =>
          dsimp only at hd
          by_cases hm : m ≠ 0
          · rw [if_pos hm] at hd
            dsimp only at hd
            rw [euroVisible_commit] at hd
            exact hmid d (by rw [hsnd]; exact hd)
          · rw [if_neg hm] at hd
            dsimp only at hd
            exact hmid d (by rw [hsnd]; exact hd)

/-- Witness for C1: the record ingested from `rowL1` is newly persisted and
satisfies the canonical-shape invariant. -/
theorem claim_C1_witness :
    recL1 ∈ lotoVisible (updateLotoDraws pdp0 (.ok [rowL1]) sess0).2 ∧
      (recL1 ∈ lotoVisible sess0 ∨
        (recL1.main_numbers.Sorted (· < ·) ∧ recL1.main_numbers.length = 5 ∧
          [recL1.chance_number].Sorted (· < ·) ∧ [recL1.chance_number].length = 1)) :=
  ⟨by decide,
   claim_C1_persisted_rows_canonical.1 pdp0 (.ok [rowL1]) sess0 recL1 (by decide)⟩

/-! ### Claim C2 -/

/-- C2: re-running an ingestion pass on identical source content starting
from the state the first successful run left behind inserts zero new records
and leaves the store untouched: every canonical record's key is already
present, so every row is skipped and nothing is updated in place. -/
theorem claim_C2_reingest_idempotent :
    (∀ (pdp : String → Option Nat) (src : Except FetchErr (List Row)) (s0 : Sess)
        (n : Nat) (s1 : Sess), updateLotoDraws pdp src s0 = (.ok n, s1) →
        updateLotoDraws pdp src s1 = (.ok 0, s1)) ∧
    (∀ (pdp : String → Option Nat) (src : Except FetchErr (List Row)) (s0 : Sess)
        (n : Nat) (s1 : Sess), updateEuroDraws pdp src s0 = (.ok n, s1) →
        updateEuroDraws pdp src s1 = (.ok 0, s1)) := by
  constructor
  · intro pdp src s0 n s1 h
    cases src with
    | error e =>
      unfold updateLotoDraws at h
      rw [Prod.mk.injEq] at h
      exact absurd h.1 (by simp)
    | ok rows =>
      unfold updateLotoDraws at h ⊢
      dsimp only at h ⊢
      cases hloop : lotoLoop pdp rows s0 0 with
      | mk res sMid =>
        rw [hloop] at h
        cases res with
        | error e =>
          dsimp only at h
          rw [Prod.mk.injEq] at h
          exact absurd h.1 (by simp)
        | ok m =>
          dsimp only at h
          obtain ⟨hmono, hcov⟩ := lotoLoop_keys pdp rows s0 0 m sMid hloop
          have hcov1 : ∀ row ∈ rows, ∃ r, lotoCanon pdp row = .ok r ∧
              ∀ d, r = some d → hasLKey s1 d = true := by
            by_cases hm : m ≠ 0
            · rw [if_pos hm, Prod.mk.injEq] at h
              intro row hrow
              obtain ⟨r, hr, hkey⟩ := hcov row hrow
              refine ⟨r, hr, fun d hd => ?_⟩
              rw [← h.2, hasLKey_commit]
              exact hkey d hd
            · rw [if_neg hm, Prod.mk.injEq] at h
              intro row hrow
              obtain ⟨r, hr, hkey⟩ := hcov row hrow
              refine ⟨r, hr, fun d hd => ?_⟩
              rw [← h.2]
              exact hkey d hd
          rw [lotoLoop_skip pdp rows s1 0 hcov1]
          simp
  · intro pdp src s0 n s1 h
    cases src with
    | error e =>
      unfold updateEuroDraws at h
      rw [Prod.mk.injEq] at h
      exact absurd h.1 (by simp)
    | ok rows =>
      unfold updateEuroDraws at h ⊢
      dsimp only at h ⊢
      cases hloop : euroLoop pdp rows s0 0 with
      | mk res sMid =>
        rw [hloop] at h
        cases res with
        | error e =>
          dsimp only at h
          rw [Prod.mk.injEq] at h
          exact absurd h.1 (by simp)
        | ok m =>
          dsimp only at h
          obtain ⟨hmono, hcov⟩ := euroLoop_keys pdp rows s0 0 m sMid hloop
          have hcov1 : ∀ row ∈ rows, ∃ r, euroCanon pdp row = .ok r ∧
              ∀ d, r = some d → hasEKey s1 d = true := by
            by_cases hm : m ≠ 0
            · rw [if_pos hm, Prod.mk.injEq] at h
              intro row hrow
              obtain ⟨r, hr, hkey⟩ := hcov row hrow
              refine ⟨r, hr, fun d hd => ?_⟩
              rw [← h.2, hasEKey_commit]
              exact hkey d hd
            · rw [if_neg hm, Prod.mk.injEq] at h
              intro row hrow
              obtain ⟨r, hr, hkey⟩ := hcov row hrow
              refine ⟨r, hr, fun d hd => ?_⟩
              rw [← h.2]
              exact hkey d hd
          rw [euroLoop_skip pdp rows s1 0 hcov1]
          simp

/-- Witness for C2: a first run over one valid Loto row inserts it, and a
second run over the same content inserts nothing and leaves the session
unchanged. -/
theorem claim_C2_witness :
    updateLotoDraws pdp0 (.ok [rowL1]) sess0 = (.ok 1, sessL1) ∧
      updateLotoDraws pdp0 (.ok [rowL1]) sessL1 = (.ok 0, sessL1) :=
  ⟨rfl, claim_C2_reingest_idempotent.1 pdp0 (.ok [rowL1]) sess0 1 sessL1 rfl⟩

/-! ### Claim C4 -/

/-- Counterexample for C4: `update_all_draws` does not commit the whole run
in one transaction. The Loto pass commits its insertions before the
EuroMillions pass starts, so when the EuroMillions download fails
(a structural error aborting the run mid-stream), the Loto row inserted by
the same run stays committed: the store is not unchanged and nothing rolls
it back. -/
theorem claim_C4_counterexample :
    (updateAllDraws pdp0 (.ok [rowL1]) (.error .downloadError) sess0).1
        = .error .downloadError ∧
      (updateAllDraws pdp0 (.ok [rowL1]) (.error .downloadError) sess0).2.lotoDb
        = [recL1] ∧
      sess0.lotoDb = [] := ⟨rfl, rfl, rfl⟩

/-- C4 (amended): commits are per game pass, not per `update_all_draws` run.
Within one pass (`update_loto_draws` or `update_euromillions_draws`) all
insertions are committed together by the single commit at the end of the
pass: on success (from a session with no pending rows) the committed store
grows by exactly the pass's insertions and nothing stays pending, and when a
structural error aborts the pass mid-stream the committed stores are
unchanged (the rows processed so far stay uncommitted and are discarded by
the caller's rollback). Across `update_all_draws`, however, a Loto commit
precedes the EuroMillions pass, so a EuroMillions failure does not undo it
(see the counterexample). -/
theorem claim_C4_amended_per_game_commit :
    (∀ (pdp : String → Option Nat) (src : Except FetchErr (List Row)) (s : Sess)
        (e : FetchErr) (sf : Sess), updateLotoDraws pdp src s = (.error e, sf) →
        sf.lotoDb = s.lotoDb ∧ sf.euroDb = s.euroDb) ∧
    (∀ (pdp : String → Option Nat) (src : Except FetchErr (List Row)) (s : Sess)
        (n : Nat) (sf : Sess), s.lotoPending = [] → s.euroPending = [] →
        updateLotoDraws pdp src s = (.ok n, sf) →
        sf.lotoPending = [] ∧ sf.euroPending = [] ∧ sf.euroDb = s.euroDb ∧
        ∃ new, sf.lotoDb = s.lotoDb ++ new ∧ new.length = n) ∧
    (∀ (pdp : String → Option Nat) (src : Except FetchErr (List Row)) (s : Sess)
        (e : FetchErr) (sf : Sess), updateEuroDraws pdp src s = (.error e, sf) →
        sf.euroDb = s.euroDb ∧ sf.lotoDb = s.lotoDb) ∧
    (∀ (pdp : String → Option Nat) (src : Except FetchErr (List Row)) (s : Sess)
        (n : Nat) (sf : Sess), s.lotoPending = [] → s.euroPending = [] →
        updateEuroDraws pdp src s = (.ok n, sf) →
        sf.euroPending = [] ∧ sf.lotoPending = [] ∧ sf.lotoDb = s.lotoDb ∧
        ∃ new, sf.euroDb = s.euroDb ++ new ∧ new.length = n) := by
  refine ⟨?_, ?_, ?_, ?_⟩
  · intro pdp src s e sf h
    cases src with
    | error e' =>
      unfold updateLotoDraws at h
      rw [Prod.mk.injEq] at h
      rw [← h.2]
      exact ⟨rfl, rfl⟩
    | ok rows =>
      unfold updateLotoDraws at h
      dsimp only at h
      cases hloop : lotoLoop pdp rows s 0 with
      | mk res sMid =>
        rw [hloop] at h
        obtain ⟨h1, h2, h3, new, hpend, hprov, hcount⟩ := lotoLoop_state pdp rows s 0
        simp only [hloop] at h1 h2 h3 hpend
        cases res with
        | error e2 =>
          dsimp only at h
          rw [Prod.mk.injEq] at h
          rw [← h.2]
          exact ⟨h1, h2⟩
        | ok m =>
          dsimp only at h
          by_cases hm : m ≠ 0
          · rw [if_pos hm, Prod.mk.injEq] at h
            exact absurd h.1 (by simp)
          · rw [if_neg hm, Prod.mk.injEq] at h
            exact absurd h.1 (by simp)
  · intro pdp src s n sf hlp hep h
    cases src with
    | error e =>
      unfold updateLotoDraws at h
      rw [Prod.mk.injEq] at h
      exact absurd h.1 (by simp)
    | ok rows =>
      unfold updateLotoDraws at h
      dsimp only at h
      cases hloop : lotoLoop pdp rows s 0 with
      | mk res sMid =>
        rw [hloop] at h
        obtain ⟨h1, h2, h3, new, hpend, hprov, hcount⟩ := lotoLoop_state pdp rows s 0
        simp only [hloop] at h1 h2 h3 hpend hcount
        cases res with
        | error e =>
          dsimp only at h
          rw [Prod.mk.injEq] at h
          exact absurd h.1 (by simp)
        | ok m =>
          dsimp only at h
          have hmn : m = 0 + new.length := hcount m rfl
          by_cases hm : m ≠ 0
          · rw [if_pos hm, Prod.mk.injEq] at h
            obtain ⟨hn, hsf⟩ := h
            injection hn with hn'
            rw [← hsf]
            refine ⟨rfl, rfl, ?_, new, ?_, ?_⟩
            · simp [commitSess, h2, h3, hep]
            · simp [commitSess, h1, hpend, hlp]
            · omega
          · rw [if_neg hm, Prod.mk.injEq] at h
            obtain ⟨hn, hsf⟩ := h
            injection hn with hn'
            push_neg at hm
            have hnew : new = [] := by
              have : new.length = 0 := by omega
              exact List.length_eq_zero.mp this
            rw [← hsf]
            refine ⟨?_, ?_, h2, [], ?_, ?_⟩
            · rw [hpend, hlp, hnew]
              rfl
            · rw [h3, hep]
            · rw [h1]
              simp
            · simp
              omega
  · intro pdp src s e sf h
    cases src with
    | error e' =>
      unfold updateEuroDraws at h
      rw [Prod.mk.injEq] at h
      rw [← h.2]
      exact ⟨rfl, rfl⟩
    | ok rows =>
      unfold updateEuroDraws at h
      dsimp only at h
      cases hloop : euroLoop pdp rows s 0 with
      | mk res sMid =>
        rw [hloop] at h
        obtain ⟨h1, h2, h3, new, hpend, hprov, hcount⟩ := euroLoop_state pdp rows s 0
        simp only [hloop] at h1 h2 h3 hpend
        cases res with
        | error e2 =>
          dsimp only at h
          rw [Prod.mk.injEq] at h
          rw [← h.2]
          exact ⟨h1, h2⟩
        | ok m =>
          dsimp only at h
          by_cases hm : m ≠ 0
          · rw [if_pos hm, Prod.mk.injEq] at h
            exact absurd h.1 (by simp)
          · rw [if_neg hm, Prod.mk.injEq] at h
            exact absurd h.1 (by simp)
  · intro pdp src s n sf hlp hep h
    cases src with
    | error e =>
      unfold updateEuroDraws at h
      rw [Prod.mk.injEq] at h
      exact absurd h.1 (by simp)
    | ok rows =>
      unfold updateEuroDraws at h
      dsimp only at h
      cases hloop : euroLoop pdp rows s 0 with
      | mk res sMid =>
        rw [hloop] at h
        obtain ⟨h1, h2, h3, new, hpend, hprov, hcount⟩ := euroLoop_state pdp rows s 0
        simp only [hloop] at h1 h2 h3 hpend hcount
        cases res with
        | error e =>
          dsimp only at h
          rw [Prod.mk.injEq] at h
          exact absurd h.1 (by simp)
        | ok m =>
          dsimp only at h
          have hmn : m = 0 + new.length := hcount m rfl
          by_cases hm : m ≠ 0
          · rw [if_pos hm, Prod.mk.injEq] at h
            obtain ⟨hn, hsf⟩ := h
            injection hn with hn'
            rw [← hsf]
            refine ⟨rfl, rfl, ?_, new, ?_, ?_⟩
            · simp [commitSess, h2, h3, hlp]
            · simp [commitSess, h1, hpend, hep]
            · omega
          · rw [if_neg hm, Prod.mk.injEq] at h
            obtain ⟨hn, hsf⟩ := h
            injection hn with hn'
            push_neg at hm
            have hnew : new = [] := by
              have : new.length = 0 := by omega
              exact List.length_eq_zero.mp this
            rw [← hsf]
            refine ⟨?_, ?_, h2, [], ?_, ?_⟩
            · rw [hpend, hep, hnew]
              rfl
            · rw [h3, hlp]
            · rw [h1]
              simp
            · simp
              omega

/-- Witness for C4 (amended): the successful ingestion of `rowL1` from the
empty session leaves nothing pending and commits exactly one new row. -/
theorem claim_C4_witness :
    sessL1.lotoPending = [] ∧ sessL1.euroPending = [] ∧
      (∃ new, sessL1.lotoDb = sess0.lotoDb ++ new ∧ new.length = 1) := by
  have h := claim_C4_amended_per_game_commit.2.1 pdp0 (.ok [rowL1]) sess0 1 sessL1
    rfl rfl rfl
  exact ⟨h.1, h.2.1, h.2.2.2⟩

/-! ### Claim C7 -/

/-- C7: a data row whose deduplicated main-number count differs from the
profile's main count (or whose extra-number part is missing/short: no chance
number for Loto, fewer than two distinct stars for EuroMillions) is silently
dropped: the loop neither raises nor changes the session and processes the
remaining rows exactly as if the row were absent. -/
theorem claim_C7_cardinality_silent_drop :
    (∀ (pdp : String → Option Nat) (row : Row) (rest : List Row) (s : Sess) (n : Nat)
        (dd : Nat) (dn : Option Int) (nums : List Int) (ch : Option Int),
        parseDateE pdp row = .ok dd → parseDrawNumberE row = .ok dn →
        lotoNumbersE row = .ok nums → lotoChanceE row = .ok ch →
        ((pySortedSet nums).length ≠ 5 ∨ ch = none) →
        lotoLoop pdp (row :: rest) s n = lotoLoop pdp rest s n) ∧
    (∀ (pdp : String → Option Nat) (row : Row) (rest : List Row) (s : Sess) (n : Nat)
        (dd : Nat) (dn : Option Int) (nums stars : List Int),
        parseDateE pdp row = .ok dd → parseDrawNumberE row = .ok dn →
        extractNumbersE row "boule_" = .ok nums →
        extractNumbersE row "etoile_" = .ok stars →
        ((pySortedSet nums).length ≠ 5 ∨ (pySortedSet stars).length ≠ 2) →
        euroLoop pdp (row :: rest) s n = euroLoop pdp rest s n) := by
  constructor
  · intro pdp row rest s n dd dn nums ch hdate hdn hnums hch hcard
    have hdedup : (pySortedSet nums).length ≤ nums.length := by
      have h1 : (pySortedSet nums).length = nums.dedup.length :=
        (List.perm_insertionSort _ _).length_eq
      have h2 : nums.dedup.length ≤ nums.length := nums.dedup_sublist.length_le
      omega
    have hnone : lotoCanon pdp row = .ok none := by
      unfold lotoCanon
      rw [hdate, hdn, hnums, hch]
      dsimp only
      by_cases h5 : nums.length < 5
      · rw [if_pos h5]
      · rw [if_neg h5]
        cases ch with
        | none => dsimp only
        | some c =>
          dsimp only
          rcases hcard with hlen | habs
          · rw [if_pos hlen]
          · exact absurd habs (by simp)
    simp only [lotoLoop]
    rw [hnone]
  · intro pdp row rest s n dd dn nums stars hdate hdn hnums hstars hcard
    have hnone : euroCanon pdp row = .ok none := by
      unfold euroCanon
      rw [hdate, hdn, hnums, hstars]
      dsimp only
      by_cases h5 : (nums.length < 5 || stars.length < 2) = true
      · rw [if_pos h5]
      · rw [if_neg h5]
        rw [if_pos hcard]
    simp only [euroLoop]
    rw [hnone]

/-- Witness for C7: the four-number row `rowL4` is dropped without error and
the following valid row is still ingested. -/
theorem claim_C7_witness :
    lotoLoop pdp0 [rowL4, rowL1] sess0 0 = lotoLoop pdp0 [rowL1] sess0 0 ∧
      updateLotoDraws pdp0 (.ok [rowL4, rowL1]) sess0 = (.ok 1, sessL1) :=
  ⟨claim_C7_cardinality_silent_drop.1 pdp0 rowL4 [rowL1] sess0 0 7 none
      [1, 2, 3, 4] (some 9) rfl rfl rfl rfl (by decide),
   rfl⟩

/-! ### Claim C5 -/

/-- Counterexample for C5: a non-numeric main-number cell is not skipped — it
raises the invalid-value error and aborts the whole run with nothing
inserted, even though the row's date parses fine. -/
theorem claim_C5_counterexample :
    updateLotoDraws pdp0 (.ok [rowLBad]) sess0 = (.error (.invalidValue "abc"), sess0) := rfl

/-- C5 (amended): during number extraction and draw-index resolution, `None`
and empty/whitespace-only cell values are skipped (they contribute nothing:
`_parse_int` yields `None` and the extraction walk drops empty-valued cells);
but a non-numeric non-empty value fed to `_parse_int` raises the
invalid-value error, which propagates and aborts the run; a row with no date
candidate key at all aborts with the date-missing error. -/
theorem claim_C5_amended_empty_skip_nonnumeric_raise :
    (parseIntE none = .ok none) ∧
    (∀ s : String, trimL s.toList = [] → parseIntE (some s) = .ok none) ∧
    (∀ (pfx k : String) (rest : Row),
        extractPairsE pfx ((k, "") :: rest) = extractPairsE pfx rest) ∧
    (∀ s : String, trimL s.toList ≠ [] → pyInt? (trimL s.toList) = none →
        parseIntE (some s) = .error (.invalidValue (String.mk (trimL s.toList)))) ∧
    (∀ (pdp : String → Option Nat) (row : Row),
        (∀ k ∈ dateKeys, rowGet? row k = none) →
        parseDateE pdp row = .error .dateMissing) := by
  refine ⟨rfl, ?_, ?_, ?_, ?_⟩
  · intro s h
    unfold parseIntE
    dsimp only
    rw [h]
    rfl
  · intro pfx k rest
    simp [extractPairsE]
  · intro s h1 h2
    unfold parseIntE
    dsimp only
    rw [if_neg (by simpa [List.isEmpty_iff] using h1), h2]
  · intro pdp row h
    have h1 := h "date_de_tirage" (by simp [dateKeys])
    have h2 := h "date_du_tirage" (by simp [dateKeys])
    have h3 := h "date" (by simp [dateKeys])
    have h4 := h "drawdate" (by simp [dateKeys])
    unfold parseDateE dateKeys
    simp [parseDateKeys, h1, h2, h3, h4]

/-- Witness for C5 (amended): an empty-valued cell is skipped by extraction,
a whitespace-only value parses to `None`, a non-numeric value raises the
invalid-value error, and a dateless row aborts with the date-missing
error. -/
theorem claim_C5_witness :
    extractPairsE "boule_" [("boule_9", ""), ("boule_1", "5")] =
        extractPairsE "boule_" [("boule_1", "5")] ∧
      parseIntE (some "  ") = .ok none ∧
      parseIntE (some "abc") = .error (.invalidValue "abc") ∧
      parseDateE pdp0 [("boule_1", "5")] = .error .dateMissing := by
  refine ⟨claim_C5_amended_empty_skip_nonnumeric_raise.2.2.1 "boule_" "boule_9"
      [("boule_1", "5")],
    claim_C5_amended_empty_skip_nonnumeric_raise.2.1 "  " (by decide), ?_,
    claim_C5_amended_empty_skip_nonnumeric_raise.2.2.2.2 pdp0 [("boule_1", "5")]
      (by decide)⟩
  exact claim_C5_amended_empty_skip_nonnumeric_raise.2.2.2.1 "abc" (by decide) (by decide)

/-! ### Claim C9 -/

/-- Counterexample for C9: the positional fallback exists only in the Loto
path. On a EuroMillions row whose main columns are named `n_1..n_5`, the
`boule_` extraction finds nothing although five numeric untagged main cells
are present (as the `n_` extraction shows) together with two valid star
cells, so the claimed fallback would have yielded a persistable record —
yet `update_euromillions_draws` simply drops the row and inserts nothing:
no fallback runs. -/
theorem claim_C9_counterexample :
    extractNumbersE rowE9 "boule_" = .ok [] ∧
      extractNumbersE rowE9 "n_" = .ok [2, 7, 14, 25, 33] ∧
      (pySortedSet [2, 7, 14, 25, 33]).length = 5 ∧
      extractNumbersE rowE9 "etoile_" = .ok [3, 9] ∧
      updateEuroDraws pdp0 (.ok [rowE9]) sess0 = (.ok 0, sess0) :=
  ⟨rfl, rfl, rfl, rfl, rfl⟩

/-- C9 (amended): only the Loto ingestion path has the fallback: when every
configured main-number prefix extracts nothing, `update_loto_draws` gathers
every remaining numeric cell not tagged date/tirage/chance/bonus/
complementaire as a main number (deduplicated and sorted); the EuroMillions
path has no fallback — a row whose `boule_` extraction is empty is dropped by
the cardinality check regardless of other numeric cells. -/
theorem claim_C9_fallback_only_loto :
    (∀ row : Row, (∀ p ∈ lotoMainPfxs, extractNumbersE row p = .ok []) →
        lotoNumbersE row = (lotoFallbackGatherE row).map pySortedSet) ∧
    (∀ (pdp : String → Option Nat) (row : Row) (dd : Nat) (dn : Option Int)
        (stars : List Int),
        parseDateE pdp row = .ok dd → parseDrawNumberE row = .ok dn →
        extractNumbersE row "boule_" = .ok [] →
        extractNumbersE row "etoile_" = .ok stars →
        euroCanon pdp row = .ok none) := by
  constructor
  · intro row h
    have hloop : ∀ ps : List String, (∀ p ∈ ps, extractNumbersE row p = .ok []) →
        lotoPrefixLoop row ps = .ok [] := by
      intro ps
      induction ps with
      | nil => intro _; rfl
      | cons p ps ih =>
        intro hall
        simp only [lotoPrefixLoop]
        rw [hall p (List.mem_cons_self p ps)]
        dsimp only
        rw [if_pos rfl]
        exact ih (fun q hq => hall q (List.mem_cons_of_mem p hq))
    unfold lotoNumbersE
    rw [hloop lotoMainPfxs h]
    dsimp only
    rw [if_pos rfl]
  · intro pdp row dd dn stars hdate hdn hnums hstars
    unfold euroCanon
    rw [hdate, hdn, hnums, hstars]
    dsimp only
    rw [if_pos (by simp)]

/-- Witness for C9 (amended): `rowLFb` (no known prefix matches) gets its
main numbers from the fallback in the Loto path, while `rowE9` is dropped by
the EuroMillions canonicalization. -/
theorem claim_C9_witness :
    lotoNumbersE rowLFb = (lotoFallbackGatherE rowLFb).map pySortedSet ∧
      euroCanon pdp0 rowE9 = .ok none :=
  ⟨claim_C9_fallback_only_loto.1 rowLFb (by decide),
   claim_C9_fallback_only_loto.2 pdp0 rowE9 7 none [3, 9] rfl rfl rfl rfl⟩

end Lottery
